import Mathlib

/-!
Verification development for the `shim-release` prototype (`src/main.rs`), a
module-fingerprinting and identifier-rewrite-planning engine for
SystemVerilog sources.  The Rust program is shallowly embedded here:

* `parse_args` is translated byte-faithfully, including Rust's UTF-8
  byte-slice semantics (`&arg[0..8]` panics off a char boundary) and
  `usize::from_str`.
* pass 1 of `rewrite` is translated as a fold over the stream of syntax-tree
  nodes produced by the external `sv_parser` preorder traversal.  The
  external parse tree is represented by a list of the node events the Rust
  `match` inspects (`Locate` leaves carrying their source bytes,
  `WhiteSpace` nodes carrying their span, module instantiations and module
  declarations carrying their extracted identifier span and name, and a
  catch-all for every ignored node kind).
* the CRC-32 checksum is the `CRC_32_CKSUM` algorithm of the `crc` crate
  (poly 0x04C11DB7, init 0, no reflection, xorout 0xFFFFFFFF); it is
  implemented bitwise on `Nat` with explicit reduction mod 2^32 and
  validated against the published check value 0x765E7680.

`BTreeMap`/`BTreeSet` are modelled as key-unique association lists /
duplicate-free lists; no claim observes their iteration order, only lookup,
membership and overwrite behaviour.
-/

abbrev Byte := Nat

/-- Source span as in the Rust `type Loc = (usize, usize, u32)`:
offset, length, line. -/
abbrev Loc := Nat × Nat × Nat

/-- Source span with its file, as in `type FileLoc = (String, usize, usize, u32)`. -/
abbrev FileLoc := String × Loc

/-! ### Association-list maps (model of `BTreeMap`) and set insertion -/

/-- Remove every binding of key `k`. -/
def eraseKey [DecidableEq α] (k : α) : List (α × β) → List (α × β)
  | [] => []
  | q :: rest => if q.1 = k then eraseKey k rest else q :: eraseKey k rest

/-- `BTreeMap::insert`: the new binding replaces any previous binding of `k`.
Iteration order is not preserved (the new binding is put in front), which no
claim observes. -/
def insertKV [DecidableEq α] (k : α) (v : β) (l : List (α × β)) : List (α × β) :=
  (k, v) :: eraseKey k l

/-- `BTreeMap::get`. -/
def lookupKV [DecidableEq α] (k : α) : List (α × β) → Option β
  | [] => none
  | q :: rest => if q.1 = k then some q.2 else lookupKV k rest

/-- `BTreeMap::contains_key`. -/
def containsKV [DecidableEq α] (k : α) (l : List (α × β)) : Bool :=
  (lookupKV k l).isSome

/-- `BTreeSet::insert` (duplicate-free list model). -/
def setInsert [DecidableEq α] (x : α) (l : List α) : List α :=
  if x ∈ l then l else x :: l

/-- Map over the values of an association list, keeping the keys. -/
def mapVal (f : β → γ) (l : List (α × β)) : List (α × γ) :=
  l.map (fun q => (q.1, f q.2))

/-! ### UTF-8 byte encoding (model of Rust `str::as_bytes`) -/

/-- UTF-8 encoding of one Unicode scalar value. -/
def charBytes (c : Char) : List Byte :=
  let v := c.toNat
  if v < 128 then [v]
  else if v < 2048 then [192 + v / 64, 128 + v % 64]
  else if v < 65536 then [224 + v / 4096, 128 + v / 64 % 64, 128 + v % 64]
  else [240 + v / 262144, 128 + v / 4096 % 64, 128 + v / 64 % 64, 128 + v % 64]

/-- The UTF-8 bytes of a string, Rust's `s.as_bytes()`. -/
def strBytes (s : String) : List Byte :=
  (s.data.map charBytes).flatten

/-- Byte size of one character in UTF-8. -/
def charSize (c : Char) : Nat := (charBytes c).length

/-- Rust `str::len`: the length in bytes. -/
def utf8Len (s : String) : Nat := (strBytes s).length

/-! ### CRC-32/CKSUM (the `crc` crate's `CRC_32_CKSUM`) -/

def crcPoly : Nat := 0x04C11DB7

/-- One shift of the non-reflected CRC register: shift left, drop to 32 bits,
xor the polynomial when the former top bit was set. -/
def crcStep (r : Nat) : Nat :=
  if Nat.testBit r 31 then ((2 * r) % 4294967296) ^^^ crcPoly
  else (2 * r) % 4294967296

/-- Eight register shifts, one input byte's worth. -/
def crcStep8 (r : Nat) : Nat :=
  crcStep (crcStep (crcStep (crcStep (crcStep (crcStep (crcStep (crcStep r)))))))

/-- `Digest::update` with a single byte: xor the byte into the top of the
register, then shift eight times. -/
def crcUpdateByte (r : Nat) (b : Byte) : Nat :=
  crcStep8 (r ^^^ ((b % 256) * 16777216))

/-- `Digest::update` with a byte slice. -/
def crcUpdate (r : Nat) (bs : List Byte) : Nat :=
  bs.foldl crcUpdateByte r

/-- `CRC32.digest()`: the CKSUM initial register value. -/
def crcInit : Nat := 0

/-- `Digest::finalize`: the CKSUM xorout step. -/
def crcFinalize (r : Nat) : Nat := r ^^^ 4294967295

/-- CRC-32/CKSUM of a whole byte sequence. -/
def cksum (bs : List Byte) : Nat := crcFinalize (crcUpdate crcInit bs)

set_option maxRecDepth 100000 in
/-- The published check value of CRC-32/CKSUM on the bytes of "123456789",
validating the implementation. -/
theorem cksum_check_value : cksum (strBytes "123456789") = 0x765E7680 := by decide

/-! ### Configuration snapshot (`struct Parameter`) and diagnostics -/

structure Parameter where
  file_list : List String
  defines : List (String × Option String)
  inc_list : List String
  top_set : List String
  rev : Nat
  pkg : String
deriving DecidableEq, Repr

/-- The warnings the program can log (`warn!` calls relevant to the claims). -/
inductive Warning where
  | revOverride (old : Nat)
  | pkgOverride (old : String)
  | moduleRedefined (name : String)
deriving DecidableEq, Repr

/-! ### Syntax-tree node events (the `RefNode` cases `rewrite` inspects)

`for node in syntax_tree` yields the preorder node stream of an
`sv_parser::SyntaxTree`.  A file is embedded as that stream, keeping only
the data the Rust `match` arms extract:

* `locate loc bytes` — a `RefNode::Locate` leaf together with
  `syntax_tree.get_str(x)`, the exact source bytes of the span;
* `whiteSpace oloc` — a `RefNode::WhiteSpace` node and the span of the
  `Locate` found under it by `unwrap_node!(x, Locate)` (if any);
* `moduleInstantiation midLoc modName` — a `RefNode::ModuleInstantiation`
  with its module-identifier span and name as extracted by
  `unwrap_node!`/`get_identifier`/`get_str`;
* `moduleDeclaration hasBody idLoc name` — a `RefNode::ModuleDeclaration`;
  `hasBody` records whether `unwrap_node!(x, ModuleDeclarationAnsi,
  ModuleDeclarationNonansi)` succeeded, `idLoc`/`name` the identifier span
  and name;
* `other` — every node kind the wildcard arm ignores. -/
inductive Node where
  | locate (loc : Loc) (bytes : List Byte)
  | whiteSpace (oloc : Option Loc)
  | moduleInstantiation (midLoc : Loc) (modName : String)
  | moduleDeclaration (hasBody : Bool) (idLoc : Loc) (name : String)
  | other
deriving DecidableEq, Repr

/-! ### Pass 1 of `rewrite` -/

/-- The per-file mutable state of the pass-1 loop. -/
structure FState where
  wsc : List Loc
  curr_module : Option String
  curr_digest : Nat
deriving DecidableEq, Repr

/-- The cross-file accumulators of `rewrite`, plus the emitted warnings. -/
structure Pass1 where
  module_map : List (String × Nat)
  rename_map : List (FileLoc × (String × Bool))
  warnings : List Warning
deriving DecidableEq, Repr

/-- The digest reseeding on a module-declaration start:
`CRC32.digest()`, `update(pkg bytes)`, `update(rev decimal bytes)`. -/
def seedDigest (p : Parameter) : Nat :=
  crcUpdate (crcUpdate crcInit (strBytes p.pkg)) (strBytes (Nat.repr p.rev))

/-- The seal block of the `ModuleDeclaration` arm:
`if let Some(m) = curr_module { if module_map.contains_key(&m) { warn } ;
module_map.insert(m, curr_digest.finalize()) }`. -/
def sealScope (fp : Nat) (cm : Option String) (g : Pass1) : Pass1 :=
  match cm with
  | some m =>
    let g1 := if containsKV m g.module_map
      then { g with warnings := g.warnings ++ [Warning.moduleRedefined m] }
      else g
    { g1 with module_map := insertKV m fp g1.module_map }
  | none => g

/-- One iteration of the `for node in syntax_tree` loop of pass 1. -/
def processNode (p : Parameter) (path : String) (st : Pass1 × FState) (n : Node) :
    Pass1 × FState :=
  match n with
  | .locate loc bytes =>
    if loc ∈ st.2.wsc then st
    else (st.1, { st.2 with curr_digest := crcUpdate st.2.curr_digest bytes })
  | .whiteSpace oloc =>
    match oloc with
    | some loc => (st.1, { st.2 with wsc := setInsert loc st.2.wsc })
    | none => st
  | .moduleInstantiation midLoc modName =>
    ({ st.1 with
        rename_map := insertKV (path, midLoc) (modName, false) st.1.rename_map },
     st.2)
  | .moduleDeclaration hasBody idLoc name =>
    if hasBody then
      (sealScope (crcFinalize st.2.curr_digest) st.2.curr_module
        { st.1 with rename_map := insertKV (path, idLoc) (name, true) st.1.rename_map },
       { st.2 with curr_module := some name, curr_digest := seedDigest p })
    else st
  | .other => st

/-- The body of the outer per-file loop of pass 1, including the end-of-file
seal of the last open module. -/
def processFile (p : Parameter) (g : Pass1) (path : String) (nodes : List Node) : Pass1 :=
  let r := nodes.foldl (processNode p path)
    (g, { wsc := [], curr_module := none, curr_digest := crcInit })
  match r.2.curr_module with
  | some m => { r.1 with module_map := insertKV m (crcFinalize r.2.curr_digest) r.1.module_map }
  | none => r.1

/-- Pass 1 of `rewrite`: fold over the file set in iteration order.
(`st_map` is a `BTreeMap<String, SyntaxTree>` in Rust; it is taken here as
the list of (path, node stream) pairs in that iteration order.) -/
def rewrite (p : Parameter) (st_map : List (String × List Node)) : Pass1 :=
  st_map.foldl (fun g f => processFile p g f.1 f.2)
    { module_map := [], rename_map := [], warnings := [] }

/-! ### Significant-token extraction

`contentPass` replays the very same state machine as pass 1 but records, per
module, the list of Significant token byte strings instead of their rolling
checksum: a `Locate` span registered as whitespace/comment contributes
nothing, every other `Locate` appends its exact source bytes, and a module
declaration seals the previous scope.  It is the document-order
significant-token stream the specification's fingerprint clause talks
about. -/

structure CState where
  wsc : List Loc
  curr_module : Option String
  curr_tokens : List (List Byte)
deriving DecidableEq, Repr

def contentNode (st : List (String × List (List Byte)) × CState) (n : Node) :
    List (String × List (List Byte)) × CState :=
  match n with
  | .locate loc bytes =>
    if loc ∈ st.2.wsc then st
    else (st.1, { st.2 with curr_tokens := st.2.curr_tokens ++ [bytes] })
  | .whiteSpace oloc =>
    match oloc with
    | some loc => (st.1, { st.2 with wsc := setInsert loc st.2.wsc })
    | none => st
  | .moduleInstantiation _ _ => st
  | .moduleDeclaration hasBody _ name =>
    if hasBody then
      let c := match st.2.curr_module with
        | some m => insertKV m st.2.curr_tokens st.1
        | none => st.1
      (c, { st.2 with curr_module := some name, curr_tokens := [] })
    else st
  | .other => st

def contentFile (c : List (String × List (List Byte))) (nodes : List Node) :
    List (String × List (List Byte)) :=
  let r := nodes.foldl contentNode (c, { wsc := [], curr_module := none, curr_tokens := [] })
  match r.2.curr_module with
  | some m => insertKV m r.2.curr_tokens r.1
  | none => r.1

def contentPass (st_map : List (String × List Node)) : List (String × List (List Byte)) :=
  st_map.foldl (fun c f => contentFile c f.2) []

/-- The per-module fingerprint the specification describes: CRC-32/CKSUM of
the package-name bytes, then the decimal revision bytes, then the
concatenation (no separator) of the significant tokens' source bytes. -/
def fpOf (p : Parameter) (ts : List (List Byte)) : Nat :=
  cksum (strBytes p.pkg ++ strBytes (Nat.repr p.rev) ++ ts.flatten)

/-! ### Argument parsing (`parse_args`)

Rust string indexing is by byte: `&arg[0..8]` panics when byte offset 8 is
not a UTF-8 character boundary.  The helpers below realize byte-indexed
slicing over the character list of a Lean string. -/

/-- Is byte offset `n` a character boundary of the character list `cs`?
(`true` at 0; `false` past the end or inside a multi-byte character.) -/
def isBoundary : List Char → Nat → Bool
  | _, 0 => true
  | [], _ + 1 => false
  | c :: cs, n + 1 =>
    if charSize c ≤ n + 1 then isBoundary cs (n + 1 - charSize c) else false

/-- The characters of the first `n` bytes (meaningful on a boundary). -/
def takeBytes : List Char → Nat → List Char
  | _, 0 => []
  | [], _ + 1 => []
  | c :: cs, n + 1 => c :: takeBytes cs (n + 1 - charSize c)

/-- The characters after the first `n` bytes (meaningful on a boundary). -/
def dropBytes : List Char → Nat → List Char
  | cs, 0 => cs
  | [], _ + 1 => []
  | c :: cs, n + 1 => dropBytes cs (n + 1 - charSize c)

/-- Rust `usize::from_str`: optional leading ASCII plus sign, one or more
ASCII digits, value below 2^64 (larger values are a `PosOverflow` parse
error on a 64-bit target). -/
def parseUsize (s : String) : Option Nat :=
  let ds := match s.data with
    | '+' :: rest => rest
    | l => l
  if ds = [] then none
  else if ds.all (fun c => c.isDigit) then
    let v := ds.foldl (fun n c => n * 10 + (c.toNat - 48)) 0
    if v < 18446744073709551616 then some v else none
  else none

/-- The ways the Rust `parse_args` aborts the process:
`rev = arg.parse().unwrap()` panicking on a malformed `-r` value, and a
byte-slice `&arg[0..8]` panicking off a character boundary. -/
inductive PError where
  | malformedArgument (arg : String)
  | notCharBoundary (arg : String)
deriving DecidableEq, Repr

/-- `enum PNext`. -/
inductive PNext where
  | P_TOP
  | P_REV
  | P_PKG
  | P_NONE
deriving DecidableEq, Repr

def PKG_DEFAULT : String := "default"

def REV_DEFAULT : Nat := 0

/-- The mutable locals of `parse_args`, plus the warnings it has logged. -/
structure ArgState where
  file_list : List String
  defines : List (String × Option String)
  inc_list : List String
  top_set : List String
  rev : Nat
  pkg : String
  pnext : PNext
  warnings : List Warning
deriving DecidableEq, Repr

def initArgState : ArgState :=
  { file_list := [], defines := [], inc_list := [], top_set := [],
    rev := REV_DEFAULT, pkg := PKG_DEFAULT, pnext := .P_NONE, warnings := [] }

/-- The trailing `else if arg == "-t" ... else { file_list.push(arg) }`
chain of the `P_NONE` arm. -/
def flagOrFile (st : ArgState) (arg : String) : ArgState :=
  if arg = "-t" then { st with pnext := .P_TOP }
  else if arg = "-r" then { st with pnext := .P_REV }
  else if arg = "-p" then { st with pnext := .P_PKG }
  else { st with file_list := st.file_list ++ [arg] }

/-- One iteration of the `for arg in args` loop of `parse_args`. -/
def parseStep (st : ArgState) (arg : String) : Except PError ArgState :=
  match st.pnext with
  | .P_NONE =>
    if 8 ≤ utf8Len arg then
      if isBoundary arg.data 8 then
        if takeBytes arg.data 8 = "+define+".data then
          let kv := dropBytes arg.data 8
          let k := kv.takeWhile (fun c => decide (c ≠ '='))
          let d : String × Option String :=
            if k.length = kv.length then (⟨k⟩, none)
            else (⟨k⟩, some ⟨kv.drop (k.length + 1)⟩)
          .ok { st with defines := insertKV d.1 d.2 st.defines }
        else if 8 < utf8Len arg ∧ takeBytes arg.data 8 = "+incdir+".data then
          .ok { st with inc_list := st.inc_list ++ [⟨dropBytes arg.data 8⟩] }
        else .ok (flagOrFile st arg)
      else .error (.notCharBoundary arg)
    else .ok (flagOrFile st arg)
  | .P_TOP => .ok { st with top_set := setInsert arg st.top_set, pnext := .P_NONE }
  | .P_REV =>
    match parseUsize arg with
    | none => .error (.malformedArgument arg)
    | some n =>
      let w := if st.rev ≠ REV_DEFAULT
        then st.warnings ++ [Warning.revOverride st.rev] else st.warnings
      .ok { st with rev := n, warnings := w, pnext := .P_NONE }
  | .P_PKG =>
    let w := if st.pkg ≠ PKG_DEFAULT
      then st.warnings ++ [Warning.pkgOverride st.pkg] else st.warnings
    .ok { st with pkg := arg, warnings := w, pnext := .P_NONE }

/-- The `for` loop of `parse_args`; a panic aborts the remaining iterations. -/
def parseFold : ArgState → List String → Except PError ArgState
  | st, [] => .ok st
  | st, arg :: rest =>
    match parseStep st arg with
    | .ok st1 => parseFold st1 rest
    | .error e => .error e

/-- `parse_args`, returning the `Parameter` it builds and the warnings it
logged, or the panic that aborted it. -/
def parse_args (args : List String) : Except PError (Parameter × List Warning) :=
  (parseFold initArgState args).map (fun st =>
    ({ file_list := st.file_list, defines := st.defines, inc_list := st.inc_list,
       top_set := st.top_set, rev := st.rev, pkg := st.pkg }, st.warnings))

/-! ### Association-list lemmas -/


theorem eraseKey_mapVal [DecidableEq α] (k : α) (f : β → γ) (l : List (α × β)) :
    eraseKey k (mapVal f l) = mapVal f (eraseKey k l) := by
  induction l with
  | nil => rfl
  | cons q rest ih =>
    simp only [mapVal, List.map_cons, eraseKey]
    by_cases h : q.1 = k
    · simpa [h] using ih
    · simpa [h, mapVal] using ih


theorem insertKV_mapVal [DecidableEq α] (k : α) (v : β) (f : β → γ) (l : List (α × β)) :
    insertKV k (f v) (mapVal f l) = mapVal f (insertKV k v l) := by
  unfold insertKV
  rw [eraseKey_mapVal]
  rfl

theorem lookupKV_mapVal [DecidableEq α] (k : α) (f : β → γ) (l : List (α × β)) :
    lookupKV k (mapVal f l) = (lookupKV k l).map f := by
  induction l with
  | nil => rfl
  | cons q rest ih =>
    simp only [mapVal, List.map_cons, lookupKV] at *
    by_cases h : q.1 = k
    · simp [h]
    · simp [h, ih]

/-! ### CRC helper lemmas -/

theorem crcUpdate_nil (r : Nat) : crcUpdate r [] = r := rfl

theorem crcUpdate_append (r : Nat) (a b : List Byte) :
    crcUpdate r (a ++ b) = crcUpdate (crcUpdate r a) b := by
  simp [crcUpdate]

/-! ### Simulation: pass-1 digests compute `fpOf` of the extracted tokens -/

/-- The bytes already folded into a fresh digest before the tokens of the
current scope: nothing outside a module, the package/revision salt inside. -/
def digestPre (p : Parameter) : Option String → List Byte
  | none => []
  | some _ => strBytes p.pkg ++ strBytes (Nat.repr p.rev)

theorem seedDigest_eq (p : Parameter) :
    seedDigest p = crcUpdate crcInit (strBytes p.pkg ++ strBytes (Nat.repr p.rev)) := by
  simp [seedDigest, crcUpdate_append]

theorem crcFinalize_pre (p : Parameter) (m : String) (ts : List (List Byte)) :
    crcFinalize (crcUpdate crcInit (digestPre p (some m) ++ ts.flatten)) = fpOf p ts := by
  simp [digestPre, fpOf, cksum, List.append_assoc]

theorem sealScope_module_map (fp : Nat) (cm : Option String) (g : Pass1) :
    (sealScope fp cm g).module_map
      = (match cm with
         | some m => insertKV m fp g.module_map
         | none => g.module_map) := by
  cases cm with
  | none => rfl
  | some m =>
    simp only [sealScope]
    by_cases h : containsKV m g.module_map = true
    · simp [h]
    · simp [h]

theorem sealScope_rename_map (fp : Nat) (cm : Option String) (g : Pass1) :
    (sealScope fp cm g).rename_map = g.rename_map := by
  cases cm with
  | none => rfl
  | some m =>
    simp only [sealScope]
    by_cases h : containsKV m g.module_map = true
    · simp [h]
    · simp [h]

theorem processNode_sim (p : Parameter) (path : String) (n : Node)
    (g : Pass1) (fs : FState) (c : List (String × List (List Byte))) (cs : CState)
    (h1 : g.module_map = mapVal (fpOf p) c)
    (h2 : fs.wsc = cs.wsc)
    (h3 : fs.curr_module = cs.curr_module)
    (h4 : fs.curr_digest
      = crcUpdate crcInit (digestPre p fs.curr_module ++ cs.curr_tokens.flatten)) :
    (processNode p path (g, fs) n).1.module_map = mapVal (fpOf p) (contentNode (c, cs) n).1
    ∧ (processNode p path (g, fs) n).2.wsc = (contentNode (c, cs) n).2.wsc
    ∧ (processNode p path (g, fs) n).2.curr_module = (contentNode (c, cs) n).2.curr_module
    ∧ (processNode p path (g, fs) n).2.curr_digest
      = crcUpdate crcInit (digestPre p (processNode p path (g, fs) n).2.curr_module
          ++ (contentNode (c, cs) n).2.curr_tokens.flatten) := by
  cases n with
  | locate loc bytes =>
    by_cases hmem : loc ∈ fs.wsc
    · have hmem2 : loc ∈ cs.wsc := h2 ▸ hmem
      simp only [processNode, contentNode, if_pos hmem, if_pos hmem2]
      exact ⟨h1, h2, h3, h4⟩
    · have hmem2 : loc ∉ cs.wsc := h2 ▸ hmem
      simp only [processNode, contentNode, if_neg hmem, if_neg hmem2]
      refine ⟨h1, h2, h3, ?_⟩
      show crcUpdate fs.curr_digest bytes
        = crcUpdate crcInit (digestPre p fs.curr_module ++ (cs.curr_tokens ++ [bytes]).flatten)
      rw [h4]
      simp [crcUpdate_append, List.flatten_append, List.append_assoc]
  | whiteSpace oloc =>
    cases oloc with
    | some loc =>
      refine ⟨h1, ?_, h3, h4⟩
      show setInsert loc fs.wsc = setInsert loc cs.wsc
      rw [h2]
    | none => exact ⟨h1, h2, h3, h4⟩
  | moduleInstantiation midLoc modName =>
    exact ⟨h1, h2, h3, h4⟩
  | moduleDeclaration hasBody idLoc name =>
    cases hasBody with
    | false => exact ⟨h1, h2, h3, h4⟩
    | true =>
      refine ⟨?_, h2, rfl, ?_⟩
      · show (sealScope (crcFinalize fs.curr_digest) fs.curr_module
            { g with rename_map := insertKV (path, idLoc) (name, true) g.rename_map }).module_map
          = mapVal (fpOf p)
              (match cs.curr_module with
               | some m => insertKV m cs.curr_tokens c
               | none => c)
        rw [sealScope_module_map, h3]
        cases hm : cs.curr_module with
        | none => exact h1
        | some m =>
          have hfm : fs.curr_module = some m := by rw [h3, hm]
          have hfp : crcFinalize fs.curr_digest = fpOf p cs.curr_tokens := by
            rw [h4, hfm]
            exact crcFinalize_pre p m cs.curr_tokens
          show insertKV m (crcFinalize fs.curr_digest) g.module_map
            = mapVal (fpOf p) (insertKV m cs.curr_tokens c)
          rw [hfp, h1, insertKV_mapVal]
      · show seedDigest p
          = crcUpdate crcInit (digestPre p (some name) ++ List.flatten [])
        simp [seedDigest_eq, digestPre]
  | other =>
    exact ⟨h1, h2, h3, h4⟩

theorem foldNodes_sim (p : Parameter) (path : String) (nodes : List Node) :
    ∀ (g : Pass1) (fs : FState) (c : List (String × List (List Byte))) (cs : CState),
    g.module_map = mapVal (fpOf p) c →
    fs.wsc = cs.wsc →
    fs.curr_module = cs.curr_module →
    fs.curr_digest = crcUpdate crcInit (digestPre p fs.curr_module ++ cs.curr_tokens.flatten) →
    (nodes.foldl (processNode p path) (g, fs)).1.module_map
      = mapVal (fpOf p) (nodes.foldl contentNode (c, cs)).1
    ∧ (nodes.foldl (processNode p path) (g, fs)).2.curr_module
      = (nodes.foldl contentNode (c, cs)).2.curr_module
    ∧ (nodes.foldl (processNode p path) (g, fs)).2.curr_digest
      = crcUpdate crcInit
          (digestPre p (nodes.foldl (processNode p path) (g, fs)).2.curr_module
            ++ (nodes.foldl contentNode (c, cs)).2.curr_tokens.flatten) := by
  induction nodes with
  | nil =>
    intro g fs c cs h1 h2 h3 h4
    exact ⟨h1, h3, h4⟩
  | cons n rest ih =>
    intro g fs c cs h1 h2 h3 h4
    obtain ⟨k1, k2, k3, k4⟩ := processNode_sim p path n g fs c cs h1 h2 h3 h4
    simp only [List.foldl_cons]
    have e1 : processNode p path (g, fs) n
        = ((processNode p path (g, fs) n).1, (processNode p path (g, fs) n).2) := rfl
    have e2 : contentNode (c, cs) n
        = ((contentNode (c, cs) n).1, (contentNode (c, cs) n).2) := rfl
    rw [e1, e2]
    exact ih _ _ _ _ k1 k2 k3 k4

/-- The end-of-file seal (which, unlike `sealScope`, never warns) preserves
the module-map correspondence. -/
theorem sealEOF_sim (p : Parameter) (r : Pass1 × FState)
    (rc : List (String × List (List Byte)) × CState)
    (k1 : r.1.module_map = mapVal (fpOf p) rc.1)
    (k3 : r.2.curr_module = rc.2.curr_module)
    (k4 : r.2.curr_digest
      = crcUpdate crcInit (digestPre p r.2.curr_module ++ rc.2.curr_tokens.flatten)) :
    (match r.2.curr_module with
     | some m =>
       { r.1 with module_map := insertKV m (crcFinalize r.2.curr_digest) r.1.module_map }
     | none => r.1).module_map
    = mapVal (fpOf p)
        (match rc.2.curr_module with
         | some m => insertKV m rc.2.curr_tokens rc.1
         | none => rc.1) := by
  cases hm : rc.2.curr_module with
  | none =>
    have hr : r.2.curr_module = none := by rw [k3, hm]
    simp only [hm, hr]
    exact k1
  | some m =>
    have hr : r.2.curr_module = some m := by rw [k3, hm]
    have hfp : crcFinalize r.2.curr_digest = fpOf p rc.2.curr_tokens := by
      rw [k4, hr]
      exact crcFinalize_pre p m rc.2.curr_tokens
    simp only [hm, hr]
    show insertKV m (crcFinalize r.2.curr_digest) r.1.module_map
      = mapVal (fpOf p) (insertKV m rc.2.curr_tokens rc.1)
    rw [hfp, k1, insertKV_mapVal]

/-- Pass 1 on one file preserves the correspondence between the module map
and the extracted significant-token map. -/
theorem processFile_sim (p : Parameter) (path : String) (nodes : List Node)
    (g : Pass1) (c : List (String × List (List Byte)))
    (h : g.module_map = mapVal (fpOf p) c) :
    (processFile p g path nodes).module_map = mapVal (fpOf p) (contentFile c nodes) := by
  obtain ⟨k1, k3, k4⟩ := foldNodes_sim p path nodes g
    { wsc := [], curr_module := none, curr_digest := crcInit }
    c { wsc := [], curr_module := none, curr_tokens := [] }
    h rfl rfl rfl
  exact sealEOF_sim p _ _ k1 k3 k4

/-- The whole pass-1 module map is the `fpOf` image of the extracted
significant-token map. -/
theorem rewrite_content (p : Parameter) (files : List (String × List Node)) :
    (rewrite p files).module_map = mapVal (fpOf p) (contentPass files) := by
  suffices h : ∀ (fs : List (String × List Node)) (g : Pass1)
      (c : List (String × List (List Byte))),
      g.module_map = mapVal (fpOf p) c →
      (fs.foldl (fun g f => processFile p g f.1 f.2) g).module_map
        = mapVal (fpOf p) (fs.foldl (fun c f => contentFile c f.2) c) by
    exact h files { module_map := [], rename_map := [], warnings := [] } [] rfl
  intro fs
  induction fs with
  | nil => intro g c h; exact h
  | cons f rest ih =>
    intro g c h
    simp only [List.foldl_cons]
    exact ih _ _ (processFile_sim p f.1 f.2 g c h)

/-! ### The rename table as a fold of insertions -/

/-- The rename-map insertions one node event performs. -/
def nodeRenames (path : String) : Node → List (FileLoc × (String × Bool))
  | .moduleInstantiation midLoc modName => [((path, midLoc), (modName, false))]
  | .moduleDeclaration hasBody idLoc name =>
    if hasBody then [((path, idLoc), (name, true))] else []
  | _ => []

/-- All rename-map insertions of one file, in document order. -/
def fileRenames (path : String) (nodes : List Node) : List (FileLoc × (String × Bool)) :=
  (nodes.map (nodeRenames path)).flatten

/-- All rename-map insertions of the run, in processing order. -/
def renameEvents (files : List (String × List Node)) : List (FileLoc × (String × Bool)) :=
  (files.map (fun f => fileRenames f.1 f.2)).flatten

/-- Fold a list of insertions into a map. -/
def insertAll [DecidableEq α] (m : List (α × β)) (evs : List (α × β)) : List (α × β) :=
  evs.foldl (fun m e => insertKV e.1 e.2 m) m

theorem insertAll_append [DecidableEq α] (m : List (α × β)) (a b : List (α × β)) :
    insertAll m (a ++ b) = insertAll (insertAll m a) b := by
  simp [insertAll]

theorem processNode_rename (p : Parameter) (path : String) (st : Pass1 × FState) (n : Node) :
    (processNode p path st n).1.rename_map
      = insertAll st.1.rename_map (nodeRenames path n) := by
  cases n with
  | locate loc bytes =>
    by_cases h : loc ∈ st.2.wsc
    · simp [processNode, nodeRenames, insertAll, h]
    · simp [processNode, nodeRenames, insertAll, h]
  | whiteSpace oloc => cases oloc <;> rfl
  | moduleInstantiation midLoc modName => rfl
  | moduleDeclaration hasBody idLoc name =>
    cases hasBody with
    | false => rfl
    | true =>
      show (sealScope (crcFinalize st.2.curr_digest) st.2.curr_module
          { st.1 with
              rename_map := insertKV (path, idLoc) (name, true) st.1.rename_map }).rename_map
        = _
      rw [sealScope_rename_map]
      rfl
  | other => rfl

theorem foldNodes_rename (p : Parameter) (path : String) (nodes : List Node) :
    ∀ st : Pass1 × FState,
    (nodes.foldl (processNode p path) st).1.rename_map
      = insertAll st.1.rename_map (fileRenames path nodes) := by
  induction nodes with
  | nil => intro st; rfl
  | cons n rest ih =>
    intro st
    have hfr : fileRenames path (n :: rest) = nodeRenames path n ++ fileRenames path rest := by
      simp [fileRenames]
    rw [List.foldl_cons, ih, hfr, insertAll_append, processNode_rename]

theorem processFile_rename (p : Parameter) (g : Pass1) (path : String) (nodes : List Node) :
    (processFile p g path nodes).rename_map = insertAll g.rename_map (fileRenames path nodes) := by
  unfold processFile
  cases hm : (nodes.foldl (processNode p path)
      (g, { wsc := [], curr_module := none, curr_digest := crcInit })).2.curr_module with
  | none =>
    simp only [hm]
    exact foldNodes_rename p path nodes _
  | some m =>
    simp only [hm]
    show (nodes.foldl (processNode p path)
        (g, { wsc := [], curr_module := none, curr_digest := crcInit })).1.rename_map = _
    exact foldNodes_rename p path nodes _

/-- The final rename table is exactly the fold of all identifier insertions
in processing order. -/
theorem rewrite_rename (p : Parameter) (files : List (String × List Node)) :
    (rewrite p files).rename_map = insertAll [] (renameEvents files) := by
  suffices h : ∀ (fs : List (String × List Node)) (g : Pass1),
      (fs.foldl (fun g f => processFile p g f.1 f.2) g).rename_map
        = insertAll g.rename_map (renameEvents fs) by
    exact h files { module_map := [], rename_map := [], warnings := [] }
  intro fs
  induction fs with
  | nil => intro g; rfl
  | cons f rest ih =>
    intro g
    have hre : renameEvents (f :: rest) = fileRenames f.1 f.2 ++ renameEvents rest := by
      simp [renameEvents]
    rw [List.foldl_cons, ih, hre, insertAll_append, processFile_rename]

/-! ### Key uniqueness and lookup lemmas -/

theorem keys_eraseKey_sublist [DecidableEq α] (k : α) (l : List (α × β)) :
    ((eraseKey k l).map Prod.fst).Sublist (l.map Prod.fst) := by
  induction l with
  | nil => simp [eraseKey]
  | cons q rest ih =>
    simp only [eraseKey]
    by_cases h : q.1 = k
    · simp only [if_pos h, List.map_cons]
      exact ih.cons q.1
    · simp only [if_neg h, List.map_cons]
      exact ih.cons₂ q.1

theorem not_mem_keys_eraseKey [DecidableEq α] (k : α) (l : List (α × β)) :
    k ∉ (eraseKey k l).map Prod.fst := by
  induction l with
  | nil => simp [eraseKey]
  | cons q rest ih =>
    simp only [eraseKey]
    by_cases h : q.1 = k
    · simpa [h] using ih
    · simp only [if_neg h, List.map_cons, List.mem_cons]
      intro hc
      rcases hc with hc | hc
      · exact h hc.symm
      · exact ih hc

theorem keys_nodup_insertKV [DecidableEq α] (k : α) (v : β) (l : List (α × β))
    (h : (l.map Prod.fst).Nodup) : ((insertKV k v l).map Prod.fst).Nodup := by
  simp only [insertKV, List.map_cons, List.nodup_cons]
  exact ⟨not_mem_keys_eraseKey k l, h.sublist (keys_eraseKey_sublist k l)⟩

theorem keys_nodup_insertAll [DecidableEq α] (evs : List (α × β)) :
    ∀ m : List (α × β), (m.map Prod.fst).Nodup → ((insertAll m evs).map Prod.fst).Nodup := by
  induction evs with
  | nil => intro m h; exact h
  | cons e rest ih =>
    intro m h
    exact ih _ (keys_nodup_insertKV e.1 e.2 m h)

theorem mem_val_unique_of_keys_nodup [DecidableEq α] (l : List (α × β))
    (hnd : (l.map Prod.fst).Nodup) (k : α) (v1 v2 : β)
    (h1 : (k, v1) ∈ l) (h2 : (k, v2) ∈ l) : v1 = v2 := by
  induction l with
  | nil => cases h1
  | cons q rest ih =>
    simp only [List.map_cons, List.nodup_cons] at hnd
    rcases List.mem_cons.mp h1 with e1 | m1
    · rcases List.mem_cons.mp h2 with e2 | m2
      · rw [← e1] at e2
        exact (Prod.mk.injEq _ _ _ _ ▸ e2).2.symm
      · exfalso
        apply hnd.1
        rw [← e1]
        exact List.mem_map.mpr ⟨(k, v2), m2, rfl⟩
    · rcases List.mem_cons.mp h2 with e2 | m2
      · exfalso
        apply hnd.1
        rw [← e2]
        exact List.mem_map.mpr ⟨(k, v1), m1, rfl⟩
      · exact ih hnd.2 m1 m2

theorem lookupKV_eraseKey_ne [DecidableEq α] (k k1 : α) (h : k1 ≠ k) (l : List (α × β)) :
    lookupKV k (eraseKey k1 l) = lookupKV k l := by
  induction l with
  | nil => rfl
  | cons q rest ih =>
    simp only [eraseKey, lookupKV]
    by_cases hq : q.1 = k1
    · have hqk : q.1 ≠ k := by rw [hq]; exact h
      simp [hq, hqk, ih, h, lookupKV]
    · simp only [if_neg hq, lookupKV]
      by_cases hqk : q.1 = k
      · simp [hqk]
      · simp [hqk, ih]

theorem lookupKV_insertKV_self [DecidableEq α] (k : α) (v : β) (l : List (α × β)) :
    lookupKV k (insertKV k v l) = some v := by
  simp [insertKV, lookupKV]

theorem lookupKV_insertKV_ne [DecidableEq α] (k k1 : α) (v : β) (l : List (α × β))
    (h : k1 ≠ k) : lookupKV k (insertKV k1 v l) = lookupKV k l := by
  simp only [insertKV, lookupKV, if_neg h]
  exact lookupKV_eraseKey_ne k k1 h l

theorem lookupKV_insertAll_not_mem [DecidableEq α] (evs : List (α × β)) (k : α)
    (h : ∀ e ∈ evs, e.1 ≠ k) :
    ∀ m : List (α × β), lookupKV k (insertAll m evs) = lookupKV k m := by
  induction evs with
  | nil => intro m; rfl
  | cons e rest ih =>
    intro m
    have he : e.1 ≠ k := h e (List.mem_cons_self e rest)
    have hr : ∀ e1 ∈ rest, e1.1 ≠ k := fun e1 m1 => h e1 (List.mem_cons_of_mem e m1)
    show lookupKV k (insertAll (insertKV e.1 e.2 m) rest) = lookupKV k m
    rw [ih hr, lookupKV_insertKV_ne _ _ _ _ he]

theorem lookupKV_insertAll_mem [DecidableEq α] (evs : List (α × β))
    (hnd : (evs.map Prod.fst).Nodup) (e : α × β) (he : e ∈ evs) :
    ∀ m : List (α × β), lookupKV e.1 (insertAll m evs) = some e.2 := by
  induction evs with
  | nil => cases he
  | cons a rest ih =>
    intro m
    simp only [List.map_cons, List.nodup_cons] at hnd
    rcases List.mem_cons.mp he with hea | her
    · subst hea
      show lookupKV e.1 (insertAll (insertKV e.1 e.2 m) rest) = some e.2
      have hr : ∀ e1 ∈ rest, e1.1 ≠ e.1 := by
        intro e1 m1 hc
        exact hnd.1 (hc ▸ List.mem_map_of_mem Prod.fst m1)
      rw [lookupKV_insertAll_not_mem rest e.1 hr, lookupKV_insertKV_self]
    · exact ih hnd.2 her _


/-! ### Injectivity of the CRC register update in its starting state

Each register shift is a bijection on the 32-bit state space, so feeding the
same byte sequence from two different seed states can never collide.  This
is what makes the salt sensitivity of the fingerprint a statement about seed
states only. -/

theorem crcStep_lt (r : Nat) : crcStep r < 4294967296 := by
  unfold crcStep
  by_cases h : Nat.testBit r 31
  · simp only [if_pos h]
    have h1 : (2 * r) % 4294967296 < 4294967296 := Nat.mod_lt _ (by norm_num)
    have h2 : crcPoly < 4294967296 := by norm_num [crcPoly]
    have e : (4294967296 : Nat) = 2 ^ 32 := by norm_num
    rw [e] at h1 h2 ⊢
    exact Nat.xor_lt_two_pow h1 h2
  · simp only [if_neg h]
    exact Nat.mod_lt _ (by norm_num)

theorem testBit31_iff (x : Nat) (hx : x < 4294967296) :
    Nat.testBit x 31 = true ↔ 2147483648 ≤ x := by
  rw [Nat.testBit_to_div_mod]
  have e : (2 : Nat) ^ 31 = 2147483648 := by norm_num
  rw [e]
  simp only [decide_eq_true_eq]
  omega

theorem testBit_two_mul_mod (x : Nat) :
    Nat.testBit ((2 * x) % 4294967296) 0 = false := by
  rw [Nat.testBit_to_div_mod]
  simp only [pow_zero, Nat.div_one, decide_eq_false_iff_not]
  omega

theorem crcStep_inj (a b : Nat) (ha : a < 4294967296) (hb : b < 4294967296)
    (h : crcStep a = crcStep b) : a = b := by
  have hpoly0 : Nat.testBit crcPoly 0 = true := by decide
  unfold crcStep at h
  by_cases t1 : Nat.testBit a 31 <;> by_cases t2 : Nat.testBit b 31
  · rw [if_pos t1, if_pos t2] at h
    have hmm : (2 * a) % 4294967296 = (2 * b) % 4294967296 := by
      have h2 := congrArg (fun z => z ^^^ crcPoly) h
      simpa [Nat.xor_cancel_right] using h2
    have la : 2147483648 ≤ a := (testBit31_iff a ha).mp t1
    have lb : 2147483648 ≤ b := (testBit31_iff b hb).mp t2
    omega
  · exfalso
    rw [if_pos t1, if_neg t2] at h
    have hb0 := congrArg (fun z => Nat.testBit z 0) h
    have hp : crcPoly = 79764919 := by norm_num [crcPoly]
    simp [Nat.testBit_xor, testBit_two_mul_mod, hpoly0, Nat.testBit_to_div_mod] at hb0
    rw [hp] at hb0
    omega
  · exfalso
    rw [if_neg t1, if_pos t2] at h
    have hb0 := congrArg (fun z => Nat.testBit z 0) h
    have hp : crcPoly = 79764919 := by norm_num [crcPoly]
    simp [Nat.testBit_xor, testBit_two_mul_mod, hpoly0, Nat.testBit_to_div_mod] at hb0
    rw [hp] at hb0
    omega
  · rw [if_neg t1, if_neg t2] at h
    have la : ¬ 2147483648 ≤ a := fun hc => t1 ((testBit31_iff a ha).mpr hc)
    have lb : ¬ 2147483648 ≤ b := fun hc => t2 ((testBit31_iff b hb).mpr hc)
    omega

theorem crcStep8_lt (r : Nat) : crcStep8 r < 4294967296 := crcStep_lt _

theorem crcStep8_inj (a b : Nat) (ha : a < 4294967296) (hb : b < 4294967296)
    (h : crcStep8 a = crcStep8 b) : a = b := by
  unfold crcStep8 at h
  have h7 := crcStep_inj _ _ (crcStep_lt _) (crcStep_lt _) h
  have h6 := crcStep_inj _ _ (crcStep_lt _) (crcStep_lt _) h7
  have h5 := crcStep_inj _ _ (crcStep_lt _) (crcStep_lt _) h6
  have h4 := crcStep_inj _ _ (crcStep_lt _) (crcStep_lt _) h5
  have h3 := crcStep_inj _ _ (crcStep_lt _) (crcStep_lt _) h4
  have h2 := crcStep_inj _ _ (crcStep_lt _) (crcStep_lt _) h3
  have h1 := crcStep_inj _ _ (crcStep_lt _) (crcStep_lt _) h2
  exact crcStep_inj a b ha hb h1

theorem crcUpdateByte_lt (r : Nat) (b : Byte) : crcUpdateByte r b < 4294967296 :=
  crcStep8_lt _

theorem crcUpdateByte_inj (x y : Nat) (b : Byte)
    (hx : x < 4294967296) (hy : y < 4294967296)
    (h : crcUpdateByte x b = crcUpdateByte y b) : x = y := by
  unfold crcUpdateByte at h
  have hc : (b % 256) * 16777216 < 4294967296 := by
    have hb2 : b % 256 ≤ 255 := Nat.le_of_lt_succ (Nat.mod_lt _ (by norm_num))
    have hb3 : (b % 256) * 16777216 ≤ 255 * 16777216 := Nat.mul_le_mul_right _ hb2
    exact lt_of_le_of_lt hb3 (by norm_num)
  have e : (4294967296 : Nat) = 2 ^ 32 := by norm_num
  have hx1 : x ^^^ ((b % 256) * 16777216) < 4294967296 := by
    rw [e] at hx hc ⊢
    exact Nat.xor_lt_two_pow hx hc
  have hy1 : y ^^^ ((b % 256) * 16777216) < 4294967296 := by
    rw [e] at hy hc ⊢
    exact Nat.xor_lt_two_pow hy hc
  have hxy := crcStep8_inj _ _ hx1 hy1 h
  have h2 := congrArg (fun z => z ^^^ ((b % 256) * 16777216)) hxy
  simpa [Nat.xor_cancel_right] using h2

theorem crcUpdate_lt (bs : List Byte) : ∀ r : Nat, r < 4294967296 →
    crcUpdate r bs < 4294967296 := by
  induction bs with
  | nil => intro r h; exact h
  | cons b rest ih =>
    intro r h
    exact ih _ (crcUpdateByte_lt r b)

theorem crcUpdate_inj (bs : List Byte) : ∀ x y : Nat,
    x < 4294967296 → y < 4294967296 →
    crcUpdate x bs = crcUpdate y bs → x = y := by
  induction bs with
  | nil => intro x y _ _ h; exact h
  | cons b rest ih =>
    intro x y hx hy h
    exact crcUpdateByte_inj x y b hx hy
      (ih _ _ (crcUpdateByte_lt x b) (crcUpdateByte_lt y b) h)

theorem crcFinalize_inj (x y : Nat) (h : crcFinalize x = crcFinalize y) : x = y := by
  have h2 := congrArg (fun z => z ^^^ 4294967295) h
  simpa [crcFinalize, Nat.xor_cancel_right] using h2

/-- `fpOf p ts` factors through the seeded register state. -/
theorem fpOf_eq_seed (p : Parameter) (ts : List (List Byte)) :
    fpOf p ts = crcFinalize (crcUpdate (seedDigest p) ts.flatten) := by
  simp [fpOf, cksum, seedDigest, crcUpdate_append]

/-- Different seed states give different fingerprints for the same token
stream. -/
theorem fpOf_ne_of_seed_ne (p1 p2 : Parameter) (ts : List (List Byte))
    (h : seedDigest p1 ≠ seedDigest p2) : fpOf p1 ts ≠ fpOf p2 ts := by
  intro hc
  apply h
  rw [fpOf_eq_seed, fpOf_eq_seed] at hc
  have hs1 : seedDigest p1 < 4294967296 := by
    rw [seedDigest_eq]
    exact crcUpdate_lt _ _ (by norm_num [crcInit])
  have hs2 : seedDigest p2 < 4294967296 := by
    rw [seedDigest_eq]
    exact crcUpdate_lt _ _ (by norm_num [crcInit])
  exact crcUpdate_inj _ _ _ hs1 hs2 (crcFinalize_inj _ _ hc)

/-! ### ASCII arguments and byte boundaries -/

/-- Every character of the string is ASCII. -/
def asciiStr (s : String) : Prop := ∀ c ∈ s.data, c.toNat < 128

instance (s : String) : Decidable (asciiStr s) := by
  unfold asciiStr
  infer_instance

theorem charBytes_ascii (c : Char) (h : c.toNat < 128) : charBytes c = [c.toNat] := by
  simp [charBytes, h]

theorem charSize_ascii (c : Char) (h : c.toNat < 128) : charSize c = 1 := by
  simp [charSize, charBytes_ascii c h]

theorem ascii_flatten_len (cs : List Char) (h : ∀ c ∈ cs, c.toNat < 128) :
    ((cs.map charBytes).flatten).length = cs.length := by
  induction cs with
  | nil => rfl
  | cons c rest ih =>
    simp only [List.map_cons, List.flatten_cons, List.length_append, List.length_cons]
    rw [charBytes_ascii c (h c (List.mem_cons_self c rest)),
      ih (fun c1 m1 => h c1 (List.mem_cons_of_mem c m1))]
    simp only [List.length_singleton]
    omega

theorem ascii_utf8Len (s : String) (h : asciiStr s) : utf8Len s = s.data.length :=
  ascii_flatten_len s.data h

theorem isBoundary_ascii (cs : List Char) (h : ∀ c ∈ cs, c.toNat < 128) :
    ∀ n, n ≤ cs.length → isBoundary cs n = true := by
  induction cs with
  | nil =>
    intro n hn
    have hn0 : n = 0 := Nat.le_zero.mp hn
    subst hn0
    rfl
  | cons c rest ih =>
    intro n hn
    cases n with
    | zero => rfl
    | succ k =>
      have hcs : charSize c = 1 := charSize_ascii c (h c (List.mem_cons_self c rest))
      simp only [isBoundary, hcs]
      have hk : k ≤ rest.length := by simpa using hn
      have h1 : 1 ≤ k + 1 := by omega
      rw [if_pos h1]
      simpa using ih (fun c1 m1 => h c1 (List.mem_cons_of_mem c m1)) k hk

/-! ### Single-step facts about `parseStep` -/

theorem parseStep_dash_t (st : ArgState) (hpn : st.pnext = .P_NONE) :
    parseStep st "-t" = .ok { st with pnext := .P_TOP } := by
  have h8 : ¬ 8 ≤ utf8Len "-t" := by decide
  simp only [parseStep, hpn, if_neg h8, flagOrFile, if_pos rfl, if_true]

theorem parseStep_dash_r (st : ArgState) (hpn : st.pnext = .P_NONE) :
    parseStep st "-r" = .ok { st with pnext := .P_REV } := by
  have h8 : ¬ 8 ≤ utf8Len "-r" := by decide
  have ht : ("-r" : String) ≠ "-t" := by decide
  simp only [parseStep, hpn, if_neg h8, flagOrFile, if_neg ht, if_pos rfl, if_true]

theorem parseStep_dash_p (st : ArgState) (hpn : st.pnext = .P_NONE) :
    parseStep st "-p" = .ok { st with pnext := .P_PKG } := by
  have h8 : ¬ 8 ≤ utf8Len "-p" := by decide
  have ht : ("-p" : String) ≠ "-t" := by decide
  have hr : ("-p" : String) ≠ "-r" := by decide
  simp only [parseStep, hpn, if_neg h8, flagOrFile, if_neg ht, if_neg hr, if_pos rfl, if_true]

theorem parseFold_append (l1 l2 : List String) : ∀ st : ArgState,
    parseFold st (l1 ++ l2)
      = (match parseFold st l1 with
         | .ok st1 => parseFold st1 l2
         | .error e => .error e) := by
  induction l1 with
  | nil => intro st; rfl
  | cons a rest ih =>
    intro st
    show (match parseStep st a with
          | .ok st1 => parseFold st1 (rest ++ l2)
          | .error e => .error e) = _
    cases hs : parseStep st a with
    | ok st1 =>
      simp only [parseFold, hs, ih st1]
    | error e =>
      simp only [parseFold, hs]

/-- On an ASCII argument a step never hits the byte-boundary panic: it
either succeeds or fails as a malformed `-r` value. -/
theorem parseStep_ascii (st : ArgState) (arg : String) (h : asciiStr arg) :
    (∃ st1, parseStep st arg = .ok st1)
    ∨ (∃ v, parseStep st arg = .error (.malformedArgument v)) := by
  cases hpn : st.pnext with
  | P_NONE =>
    by_cases h8 : 8 ≤ utf8Len arg
    · have hbd : isBoundary arg.data 8 = true := by
        apply isBoundary_ascii arg.data h
        rw [← ascii_utf8Len arg h]
        exact h8
      left
      simp only [parseStep, hpn, if_pos h8, hbd, if_true]
      by_cases hdef : takeBytes arg.data 8 = "+define+".data
      · rw [if_pos hdef]
        exact ⟨_, rfl⟩
      · rw [if_neg hdef]
        by_cases hinc : 8 < utf8Len arg ∧ takeBytes arg.data 8 = "+incdir+".data
        · rw [if_pos hinc]
          exact ⟨_, rfl⟩
        · rw [if_neg hinc]
          exact ⟨_, rfl⟩
    · left
      simp only [parseStep, hpn, if_neg h8]
      exact ⟨_, rfl⟩
  | P_TOP =>
    left
    simp only [parseStep, hpn]
    exact ⟨_, rfl⟩
  | P_REV =>
    cases hu : parseUsize arg with
    | none =>
      right
      simp only [parseStep, hpn, hu]
      exact ⟨arg, rfl⟩
    | some n =>
      left
      simp only [parseStep, hpn, hu]
      exact ⟨_, rfl⟩
  | P_PKG =>
    left
    simp only [parseStep, hpn]
    exact ⟨_, rfl⟩

/-- Folding over ASCII arguments can only fail with `malformedArgument`. -/
theorem parseFold_ascii (args : List String) :
    (∀ a ∈ args, asciiStr a) → ∀ (st : ArgState) (e : PError),
    parseFold st args = .error e → ∃ v, e = .malformedArgument v := by
  induction args with
  | nil =>
    intro _ st e h
    cases h
  | cons a rest ih =>
    intro ha st e h
    rcases parseStep_ascii st a (ha a (List.mem_cons_self a rest)) with ⟨st1, hok⟩ | ⟨v, herr⟩
    · rw [show parseFold st (a :: rest)
          = (match parseStep st a with
             | .ok st1 => parseFold st1 rest
             | .error e => .error e) from rfl, hok] at h
      exact ih (fun a1 m1 => ha a1 (List.mem_cons_of_mem a m1)) st1 e h
    · rw [show parseFold st (a :: rest)
          = (match parseStep st a with
             | .ok st1 => parseFold st1 rest
             | .error e => .error e) from rfl, herr] at h
      cases h
      exact ⟨v, rfl⟩

theorem parse_args_error_iff (args : List String) (e : PError) :
    parse_args args = .error e ↔ parseFold initArgState args = .error e := by
  unfold parse_args
  cases parseFold initArgState args with
  | ok st => simp [Except.map]
  | error e1 => simp [Except.map]

/-! ### Defaults: `rev` and `pkg` only change through their flags -/

theorem flagOrFile_rev (st : ArgState) (arg : String) :
    (flagOrFile st arg).rev = st.rev := by
  unfold flagOrFile
  split
  · rfl
  · split
    · rfl
    · split
      · rfl
      · rfl

theorem flagOrFile_pkg (st : ArgState) (arg : String) :
    (flagOrFile st arg).pkg = st.pkg := by
  unfold flagOrFile
  split
  · rfl
  · split
    · rfl
    · split
      · rfl
      · rfl

theorem flagOrFile_pnext_ne_rev (st : ArgState) (arg : String)
    (hne : arg ≠ "-r") (hp : st.pnext ≠ .P_REV) :
    (flagOrFile st arg).pnext ≠ .P_REV := by
  unfold flagOrFile
  by_cases h1 : arg = "-t"
  · rw [if_pos h1]
    intro hc
    cases hc
  · rw [if_neg h1, if_neg hne]
    by_cases h3 : arg = "-p"
    · rw [if_pos h3]
      intro hc
      cases hc
    · rw [if_neg h3]
      exact hp

theorem flagOrFile_pnext_ne_pkg (st : ArgState) (arg : String)
    (hne : arg ≠ "-p") (hp : st.pnext ≠ .P_PKG) :
    (flagOrFile st arg).pnext ≠ .P_PKG := by
  unfold flagOrFile
  by_cases h1 : arg = "-t"
  · rw [if_pos h1]
    intro hc
    cases hc
  · rw [if_neg h1]
    by_cases h2 : arg = "-r"
    · rw [if_pos h2]
      intro hc
      cases hc
    · rw [if_neg h2, if_neg hne]
      exact hp

theorem parseStep_preserve_rev (st : ArgState) (arg : String) (st1 : ArgState)
    (hne : arg ≠ "-r") (hp : st.pnext ≠ .P_REV)
    (h : parseStep st arg = .ok st1) :
    st1.rev = st.rev ∧ st1.pnext ≠ .P_REV := by
  cases hpn : st.pnext with
  | P_REV => exact absurd hpn hp
  | P_TOP =>
    simp only [parseStep, hpn] at h
    cases h
    exact ⟨rfl, fun hc => by cases hc⟩
  | P_PKG =>
    simp only [parseStep, hpn] at h
    cases h
    exact ⟨rfl, fun hc => by cases hc⟩
  | P_NONE =>
    have hq : st.pnext ≠ PNext.P_REV := by
      rw [hpn]
      intro hc
      cases hc
    simp only [parseStep, hpn] at h
    split at h
    · split at h
      · split at h
        · cases h
          exact ⟨rfl, fun hc => by cases hc⟩
        · split at h
          · cases h
            exact ⟨rfl, fun hc => by cases hc⟩
          · cases h
            exact ⟨flagOrFile_rev st arg, flagOrFile_pnext_ne_rev st arg hne hq⟩
      · cases h
    · cases h
      exact ⟨flagOrFile_rev st arg, flagOrFile_pnext_ne_rev st arg hne hq⟩

theorem parseStep_preserve_pkg (st : ArgState) (arg : String) (st1 : ArgState)
    (hne : arg ≠ "-p") (hp : st.pnext ≠ .P_PKG)
    (h : parseStep st arg = .ok st1) :
    st1.pkg = st.pkg ∧ st1.pnext ≠ .P_PKG := by
  cases hpn : st.pnext with
  | P_PKG => exact absurd hpn hp
  | P_TOP =>
    simp only [parseStep, hpn] at h
    cases h
    exact ⟨rfl, fun hc => by cases hc⟩
  | P_REV =>
    simp only [parseStep, hpn] at h
    cases hu : parseUsize arg with
    | none =>
      rw [hu] at h
      cases h
    | some n =>
      rw [hu] at h
      cases h
      exact ⟨rfl, fun hc => by cases hc⟩
  | P_NONE =>
    have hq : st.pnext ≠ PNext.P_PKG := by
      rw [hpn]
      intro hc
      cases hc
    simp only [parseStep, hpn] at h
    split at h
    · split at h
      · split at h
        · cases h
          exact ⟨rfl, fun hc => by cases hc⟩
        · split at h
          · cases h
            exact ⟨rfl, fun hc => by cases hc⟩
          · cases h
            exact ⟨flagOrFile_pkg st arg, flagOrFile_pnext_ne_pkg st arg hne hq⟩
      · cases h
    · cases h
      exact ⟨flagOrFile_pkg st arg, flagOrFile_pnext_ne_pkg st arg hne hq⟩

theorem parseFold_preserve_rev (args : List String) (hna : "-r" ∉ args) :
    ∀ st st1 : ArgState, st.pnext ≠ .P_REV →
    parseFold st args = .ok st1 → st1.rev = st.rev ∧ st1.pnext ≠ .P_REV := by
  induction args with
  | nil =>
    intro st st1 hp h
    cases h
    exact ⟨rfl, hp⟩
  | cons a rest ih =>
    intro st st1 hp h
    have hne : a ≠ "-r" := fun hc => hna (hc ▸ List.mem_cons_self a rest)
    have hnr : "-r" ∉ rest := fun hc => hna (List.mem_cons_of_mem a hc)
    cases hs : parseStep st a with
    | ok st2 =>
      rw [show parseFold st (a :: rest)
          = (match parseStep st a with
             | .ok s => parseFold s rest
             | .error e => .error e) from rfl, hs] at h
      obtain ⟨e1, e2⟩ := parseStep_preserve_rev st a st2 hne hp hs
      obtain ⟨f1, f2⟩ := ih hnr st2 st1 e2 h
      exact ⟨f1.trans e1, f2⟩
    | error e =>
      rw [show parseFold st (a :: rest)
          = (match parseStep st a with
             | .ok s => parseFold s rest
             | .error e => .error e) from rfl, hs] at h
      cases h

theorem parseFold_preserve_pkg (args : List String) (hna : "-p" ∉ args) :
    ∀ st st1 : ArgState, st.pnext ≠ .P_PKG →
    parseFold st args = .ok st1 → st1.pkg = st.pkg ∧ st1.pnext ≠ .P_PKG := by
  induction args with
  | nil =>
    intro st st1 hp h
    cases h
    exact ⟨rfl, hp⟩
  | cons a rest ih =>
    intro st st1 hp h
    have hne : a ≠ "-p" := fun hc => hna (hc ▸ List.mem_cons_self a rest)
    have hnr : "-p" ∉ rest := fun hc => hna (List.mem_cons_of_mem a hc)
    cases hs : parseStep st a with
    | ok st2 =>
      rw [show parseFold st (a :: rest)
          = (match parseStep st a with
             | .ok s => parseFold s rest
             | .error e => .error e) from rfl, hs] at h
      obtain ⟨e1, e2⟩ := parseStep_preserve_pkg st a st2 hne hp hs
      obtain ⟨f1, f2⟩ := ih hnr st2 st1 e2 h
      exact ⟨f1.trans e1, f2⟩
    | error e =>
      rw [show parseFold st (a :: rest)
          = (match parseStep st a with
             | .ok s => parseFold s rest
             | .error e => .error e) from rfl, hs] at h
      cases h

/-! ### Abort on a malformed `-r` value, override steps -/

/-- From any state still scanning flags, a `-r` whose value does not parse
aborts immediately: the remaining arguments are never processed. -/
theorem parseFold_bad_rev (st : ArgState) (v : String) (rest : List String)
    (hpn : st.pnext = .P_NONE) (hv : parseUsize v = none) :
    parseFold st ("-r" :: v :: rest) = .error (.malformedArgument v) := by
  show (match parseStep st "-r" with
        | .ok s => parseFold s (v :: rest)
        | .error e => .error e) = _
  rw [parseStep_dash_r st hpn]
  show (match parseStep { st with pnext := .P_REV } v with
        | .ok s => parseFold s rest
        | .error e => .error e) = _
  rw [show parseStep { st with pnext := .P_REV } v
      = (match parseUsize v with
         | none => .error (.malformedArgument v)
         | some n => .ok { st with
             rev := n,
             warnings := if st.rev ≠ REV_DEFAULT
               then st.warnings ++ [Warning.revOverride st.rev] else st.warnings,
             pnext := .P_NONE }) from rfl, hv]

/-- A second (or any) `-r N` with a well-formed value sets the revision to
`N`, warns exactly when the stored revision is not the default, and
continues with the remaining arguments. -/
theorem parseFold_rev_override (st : ArgState) (v : String) (n : Nat) (rest : List String)
    (hpn : st.pnext = .P_NONE) (hv : parseUsize v = some n) :
    parseFold st ("-r" :: v :: rest)
      = parseFold { st with
          rev := n,
          warnings := if st.rev ≠ REV_DEFAULT
            then st.warnings ++ [Warning.revOverride st.rev] else st.warnings,
          pnext := .P_NONE } rest := by
  show (match parseStep st "-r" with
        | .ok s => parseFold s (v :: rest)
        | .error e => .error e) = _
  rw [parseStep_dash_r st hpn]
  show (match parseStep { st with pnext := .P_REV } v with
        | .ok s => parseFold s rest
        | .error e => .error e) = _
  rw [show parseStep { st with pnext := .P_REV } v
      = (match parseUsize v with
         | none => .error (.malformedArgument v)
         | some n1 => .ok { st with
             rev := n1,
             warnings := if st.rev ≠ REV_DEFAULT
               then st.warnings ++ [Warning.revOverride st.rev] else st.warnings,
             pnext := .P_NONE }) from rfl, hv]

/-- A second (or any) `-p NAME` sets the package to `NAME`, warns exactly
when the stored package is not the default, and continues. -/
theorem parseFold_pkg_override (st : ArgState) (v : String) (rest : List String)
    (hpn : st.pnext = .P_NONE) :
    parseFold st ("-p" :: v :: rest)
      = parseFold { st with
          pkg := v,
          warnings := if st.pkg ≠ PKG_DEFAULT
            then st.warnings ++ [Warning.pkgOverride st.pkg] else st.warnings,
          pnext := .P_NONE } rest := by
  show (match parseStep st "-p" with
        | .ok s => parseFold s (v :: rest)
        | .error e => .error e) = _
  rw [parseStep_dash_p st hpn]
  rfl

/-! ### Concrete runs used by witnesses and counterexamples -/

/-- A small configuration: package "p", revision 1. -/
def pRun : Parameter :=
  { file_list := [], defines := [], inc_list := [], top_set := [], rev := 1, pkg := "p" }

/-- One file declaring module `bar` twice; the second declaration is the
last module of the file, so it is sealed by the end-of-file path. -/
def filesRedef : List (String × List Node) :=
  [("f", [.moduleDeclaration true (0, 6, 1) "bar", .locate (8, 1, 1) [97],
          .moduleDeclaration true (20, 6, 1) "bar", .locate (28, 1, 1) [98]])]

/-- One file declaring module `m` with a one-byte significant token. -/
def filesOneMod : List (String × List Node) :=
  [("f", [.moduleDeclaration true (0, 6, 1) "m", .locate (9, 1, 1) [109]])]

/-- The same file with an extra whitespace span registered and skipped. -/
def filesOneModWs : List (String × List Node) :=
  [("f", [.moduleDeclaration true (0, 6, 1) "m", .whiteSpace (some (6, 2, 1)),
          .locate (6, 2, 1) [32, 32], .locate (9, 1, 1) [109]])]

/-- Package "A1" revision 2: salt bytes "A1" ++ "2". -/
def pSaltA : Parameter :=
  { file_list := [], defines := [], inc_list := [], top_set := [], rev := 2, pkg := "A1" }

/-- Package "A" revision 12: salt bytes "A" ++ "12" — the same byte stream
as `pSaltA` because no separator is inserted between package and revision. -/
def pSaltB : Parameter :=
  { file_list := [], defines := [], inc_list := [], top_set := [], rev := 12, pkg := "A" }

/-- Scenario C's pair: packages "A" and "B", both revision 1. -/
def pScenA : Parameter :=
  { file_list := [], defines := [], inc_list := [], top_set := [], rev := 1, pkg := "A" }

def pScenB : Parameter :=
  { file_list := [], defines := [], inc_list := [], top_set := [], rev := 1, pkg := "B" }

/-- One file with one declaration and one instantiation, all identifier
spans distinct. -/
def filesRename : List (String × List Node) :=
  [("f", [.moduleDeclaration true (0, 6, 1) "m", .moduleInstantiation (9, 1, 1) "q"])]

/-- An argument of nine bytes whose byte offset 8 falls inside the two-byte
character é, so Rust's `&arg[0..8]` panics on it. -/
def badArg : String := "1234567é"

/-! ### The claims -/

/-- Claim C1: every module fingerprint retained by pass 1 equals the
CRC-32/CKSUM of the package-name bytes, then the decimal revision bytes,
then the concatenation — with no separator — of the exact source bytes of
the module's Significant tokens in document order (whitespace/comment spans
contributing nothing): the final module map is the image of the extracted
significant-token map under that checksum. -/
theorem claim1_fingerprint_is_salted_cksum (p : Parameter)
    (files : List (String × List Node)) :
    (rewrite p files).module_map
      = mapVal (fun ts => cksum (strBytes p.pkg ++ strBytes (Nat.repr p.rev) ++ ts.flatten))
          (contentPass files) :=
  rewrite_content p files

/-- Claim C2: two file sets whose extracted significant-token streams agree
for a module (they differ only in whitespace/comment spans) get the same
fingerprint for that module under the same package and revision. -/
theorem claim2_whitespace_invariance (p : Parameter)
    (files1 files2 : List (String × List Node)) (name : String)
    (h : lookupKV name (contentPass files1) = lookupKV name (contentPass files2)) :
    lookupKV name (rewrite p files1).module_map
      = lookupKV name (rewrite p files2).module_map := by
  rw [rewrite_content, rewrite_content, lookupKV_mapVal, lookupKV_mapVal, h]

set_option maxRecDepth 1000000 in
theorem claim2_whitespace_invariance_witness :
    lookupKV "m" (contentPass filesOneModWs) = lookupKV "m" (contentPass filesOneMod)
    ∧ lookupKV "m" (rewrite pRun filesOneModWs).module_map
        = lookupKV "m" (rewrite pRun filesOneMod).module_map :=
  ⟨by decide, claim2_whitespace_invariance pRun filesOneModWs filesOneMod "m" (by decide)⟩

set_option maxRecDepth 1000000 in
/-- Claim C3 counterexample: the pairs (package "A1", revision 2) and
(package "A", revision 12) are distinct, yet both salt the checksum with
the byte stream "A12" (no separator between package bytes and decimal
revision bytes), so the same module body gets the same fingerprint: the
claim that every two distinct (package, revision) pairs yield different
fingerprints is false. -/
theorem claim3_counterexample :
    (pSaltA.pkg ≠ pSaltB.pkg ∧ pSaltA.rev ≠ pSaltB.rev)
    ∧ lookupKV "m" (rewrite pSaltA filesOneMod).module_map
        = lookupKV "m" (rewrite pSaltB filesOneMod).module_map
    ∧ (lookupKV "m" (rewrite pSaltA filesOneMod).module_map).isSome = true := by
  decide

/-- Claim C3 amended: the same module body under two (package, revision)
pairs yields different fingerprints exactly when the seeded CRC states
(after feeding package bytes then decimal revision bytes) differ; here the
forward direction, which covers Scenario C's ("A", 1) versus ("B", 1):
different seed states imply different fingerprints for every module with
the same significant-token stream, because every CRC register step is a
bijection of the 32-bit state space.  (Pairs with the same salt byte
stream, such as ("A1", 2) and ("A", 12), always collide.) -/
theorem claim3_amended (p1 p2 : Parameter) (files : List (String × List Node))
    (name : String) (ts : List (List Byte))
    (hseed : seedDigest p1 ≠ seedDigest p2)
    (hc : lookupKV name (contentPass files) = some ts) :
    lookupKV name (rewrite p1 files).module_map
      ≠ lookupKV name (rewrite p2 files).module_map := by
  rw [rewrite_content, rewrite_content, lookupKV_mapVal, lookupKV_mapVal, hc]
  intro hcc
  exact fpOf_ne_of_seed_ne p1 p2 ts hseed (Option.some.inj hcc)

set_option maxRecDepth 1000000 in
theorem claim3_amended_witness :
    seedDigest pScenA ≠ seedDigest pScenB
    ∧ lookupKV "m" (contentPass filesOneMod) = some [[109]]
    ∧ lookupKV "m" (rewrite pScenA filesOneMod).module_map
        ≠ lookupKV "m" (rewrite pScenB filesOneMod).module_map :=
  ⟨by decide, by decide,
   claim3_amended pScenA pScenB filesOneMod "m" [[109]] (by decide) (by decide)⟩

/-- Claim C4: pass 1 is a pure function of the configuration and the file
set, so two runs over equal inputs produce equal module maps and equal
rename tables; in this embedding determinism is definitional. -/
theorem claim4_determinism (p1 p2 : Parameter) (fs1 fs2 : List (String × List Node))
    (hp : p1 = p2) (hf : fs1 = fs2) :
    (rewrite p1 fs1).module_map = (rewrite p2 fs2).module_map
    ∧ (rewrite p1 fs1).rename_map = (rewrite p2 fs2).rename_map := by
  subst hp
  subst hf
  exact ⟨rfl, rfl⟩

theorem claim4_determinism_witness :
    pRun = pRun
    ∧ (rewrite pRun filesOneMod).module_map = (rewrite pRun filesOneMod).module_map
    ∧ (rewrite pRun filesOneMod).rename_map = (rewrite pRun filesOneMod).rename_map :=
  ⟨rfl, claim4_determinism pRun pRun filesOneMod filesOneMod rfl rfl⟩

set_option maxRecDepth 1000000 in
/-- Claim C5 (code bug): module `bar` is declared twice in the file set and
the final map keeps only the second declaration's fingerprint, but no
redefinition warning is emitted: the second declaration is sealed by the
end-of-file path, which inserts into the module map without the
`contains_key` check that guards the warning in the next-declaration seal
path.  The spec (§7 ModuleRedefinition, Scenario D) says a warning is
always emitted. -/
theorem claim5_redefinition_no_warning :
    (rewrite pRun filesRedef).warnings = []
    ∧ lookupKV "bar" (rewrite pRun filesRedef).module_map
        = some (cksum (strBytes "p" ++ strBytes "1" ++ [98])) := by
  decide

/-- Claim C6 counterexample: `-r` appears twice in `-r 0 -r 5`, the last
value wins and parsing continues, but no warning is logged, because the
override warning fires only when the stored value differs from the default
(here the first `-r 0` stored the default 0): the claim that every repeated
`-r`/`-p` logs a warning is false. -/
theorem claim6_counterexample :
    parse_args ["-r", "0", "-r", "5"]
      = .ok ({ file_list := [], defines := [], inc_list := [], top_set := [],
               rev := 5, pkg := "default" }, []) := by
  rfl

/-- Claim C6 amended: when `-r` (resp. `-p`) is given again, the newly
supplied value wins and parsing continues with the remaining arguments; a
warning naming the overridden value is logged exactly when the stored value
differs from its default (revision 0, package "default") at the moment of
the override — so, e.g., `-r 0 -r 5` logs nothing. -/
theorem claim6_amended (st : ArgState) (v : String) (rest : List String)
    (hpn : st.pnext = .P_NONE) :
    (∀ n : Nat, parseUsize v = some n →
      parseFold st ("-r" :: v :: rest)
        = parseFold { st with
            rev := n,
            warnings := if st.rev ≠ REV_DEFAULT
              then st.warnings ++ [Warning.revOverride st.rev] else st.warnings,
            pnext := .P_NONE } rest)
    ∧ parseFold st ("-p" :: v :: rest)
        = parseFold { st with
            pkg := v,
            warnings := if st.pkg ≠ PKG_DEFAULT
              then st.warnings ++ [Warning.pkgOverride st.pkg] else st.warnings,
            pnext := .P_NONE } rest :=
  ⟨fun n hv => parseFold_rev_override st v n rest hpn hv,
   parseFold_pkg_override st v rest hpn⟩

theorem claim6_amended_witness :
    initArgState.pnext = PNext.P_NONE
    ∧ parseUsize "5" = some 5
    ∧ parseFold initArgState ["-r", "5"]
        = parseFold { initArgState with
            rev := 5,
            warnings := if initArgState.rev ≠ REV_DEFAULT
              then initArgState.warnings ++ [Warning.revOverride initArgState.rev]
              else initArgState.warnings,
            pnext := .P_NONE } [] :=
  ⟨by decide, by decide,
   (claim6_amended initArgState "5" [] (by decide)).1 5 (by decide)⟩

/-- Claim C7: a `-r` reached in flag position whose value is not a
well-formed non-negative integer aborts the whole run at once with a
`malformedArgument` error naming that value (the remaining arguments are
never examined); when `-r` never appears the revision stays at its default
0, and when `-p` never appears the package stays at its default
"default". -/
theorem claim7_malformed_and_defaults :
    (∀ (st : ArgState) (v : String) (rest : List String),
      st.pnext = .P_NONE → parseUsize v = none →
      parseFold st ("-r" :: v :: rest) = .error (.malformedArgument v))
    ∧ (∀ (args : List String) (res : Parameter × List Warning),
        "-r" ∉ args → parse_args args = .ok res → res.1.rev = REV_DEFAULT)
    ∧ (∀ (args : List String) (res : Parameter × List Warning),
        "-p" ∉ args → parse_args args = .ok res → res.1.pkg = PKG_DEFAULT) := by
  refine ⟨fun st v rest hpn hv => parseFold_bad_rev st v rest hpn hv, ?_, ?_⟩
  · intro args res hna h
    unfold parse_args at h
    cases hf : parseFold initArgState args with
    | error e =>
      rw [hf] at h
      cases h
    | ok st =>
      rw [hf] at h
      cases h
      have hp0 : initArgState.pnext ≠ PNext.P_REV := by
        intro hc
        cases hc
      exact (parseFold_preserve_rev args hna initArgState st hp0 hf).1
  · intro args res hna h
    unfold parse_args at h
    cases hf : parseFold initArgState args with
    | error e =>
      rw [hf] at h
      cases h
    | ok st =>
      rw [hf] at h
      cases h
      have hp0 : initArgState.pnext ≠ PNext.P_PKG := by
        intro hc
        cases hc
      exact (parseFold_preserve_pkg args hna initArgState st hp0 hf).1

theorem claim7_malformed_and_defaults_witness :
    initArgState.pnext = PNext.P_NONE
    ∧ parseUsize "x" = none
    ∧ parseFold initArgState ["-r", "x", "f.sv"] = .error (.malformedArgument "x")
    ∧ ("-r" ∉ (["a.sv"] : List String))
    ∧ parse_args ["a.sv"]
        = .ok ({ file_list := ["a.sv"], defines := [], inc_list := [], top_set := [],
                 rev := 0, pkg := "default" }, [])
    ∧ ({ file_list := ["a.sv"], defines := [], inc_list := [], top_set := [],
         rev := 0, pkg := "default" } : Parameter).rev = REV_DEFAULT :=
  ⟨by decide, by decide,
   claim7_malformed_and_defaults.1 initArgState "x" ["f.sv"] (by decide) (by decide),
   by decide, by rfl,
   claim7_malformed_and_defaults.2.1 ["a.sv"]
     ({ file_list := ["a.sv"], defines := [], inc_list := [], top_set := [],
        rev := 0, pkg := "default" }, []) (by decide) (by rfl)⟩

/-! ### Membership of rename events -/

theorem mem_fileRenames (path : String) (nodes : List Node) (n : Node)
    (e : FileLoc × (String × Bool)) (hn : n ∈ nodes) (he : e ∈ nodeRenames path n) :
    e ∈ fileRenames path nodes := by
  unfold fileRenames
  exact List.mem_flatten.mpr ⟨nodeRenames path n, List.mem_map_of_mem _ hn, he⟩

theorem mem_renameEvents (files : List (String × List Node)) (path : String)
    (nodes : List Node) (hf : (path, nodes) ∈ files) (e : FileLoc × (String × Bool))
    (he : e ∈ fileRenames path nodes) : e ∈ renameEvents files := by
  unfold renameEvents
  refine List.mem_flatten.mpr ⟨fileRenames path nodes, ?_, he⟩
  exact List.mem_map.mpr ⟨(path, nodes), hf, rfl⟩

/-- Claim C8: when the identifier spans recorded across the file set are
pairwise distinct (as they are for any real parse, where every identifier
occupies its own span), the rename table keys are pairwise distinct, no
location carries both roles, every instantiation's module-type name is
recorded at its span with the Reference role (`false`), and every module
declaration's name is recorded at its span with the Declaration role
(`true`). -/
theorem claim8_rename_table (p : Parameter) (files : List (String × List Node))
    (hnd : ((renameEvents files).map Prod.fst).Nodup) :
    (((rewrite p files).rename_map.map Prod.fst).Nodup)
    ∧ (∀ (k : FileLoc) (v1 v2 : String × Bool),
        (k, v1) ∈ (rewrite p files).rename_map →
        (k, v2) ∈ (rewrite p files).rename_map → v1 = v2)
    ∧ (∀ (path : String) (nodes : List Node) (loc : Loc) (name : String),
        (path, nodes) ∈ files → Node.moduleInstantiation loc name ∈ nodes →
        lookupKV (path, loc) (rewrite p files).rename_map = some (name, false))
    ∧ (∀ (path : String) (nodes : List Node) (loc : Loc) (name : String),
        (path, nodes) ∈ files → Node.moduleDeclaration true loc name ∈ nodes →
        lookupKV (path, loc) (rewrite p files).rename_map = some (name, true)) := by
  have hkeys : (((rewrite p files).rename_map.map Prod.fst).Nodup) := by
    rw [rewrite_rename]
    exact keys_nodup_insertAll (renameEvents files) [] (by simp)
  refine ⟨hkeys, ?_, ?_, ?_⟩
  · intro k v1 v2 h1 h2
    exact mem_val_unique_of_keys_nodup _ hkeys k v1 v2 h1 h2
  · intro path nodes loc name hf hn
    have he : ((path, loc), (name, false)) ∈ renameEvents files := by
      refine mem_renameEvents files path nodes hf _ ?_
      refine mem_fileRenames path nodes (.moduleInstantiation loc name) _ hn ?_
      simp [nodeRenames]
    rw [rewrite_rename]
    exact lookupKV_insertAll_mem (renameEvents files) hnd ((path, loc), (name, false)) he []
  · intro path nodes loc name hf hn
    have he : ((path, loc), (name, true)) ∈ renameEvents files := by
      refine mem_renameEvents files path nodes hf _ ?_
      refine mem_fileRenames path nodes (.moduleDeclaration true loc name) _ hn ?_
      simp [nodeRenames]
    rw [rewrite_rename]
    exact lookupKV_insertAll_mem (renameEvents files) hnd ((path, loc), (name, true)) he []

theorem claim8_rename_table_witness :
    ((renameEvents filesRename).map Prod.fst).Nodup
    ∧ lookupKV ("f", (9, 1, 1)) (rewrite pRun filesRename).rename_map = some ("q", false) :=
  ⟨by decide,
   (claim8_rename_table pRun filesRename (by decide)).2.2.1 "f"
     [.moduleDeclaration true (0, 6, 1) "m", .moduleInstantiation (9, 1, 1) "q"]
     (9, 1, 1) "q" (by decide) (by decide)⟩

/-- Claim C9: argument parsing is not total over Unicode: on the nine-byte
argument "1234567é" (byte offset 8 falls inside é) the byte-slice test
panics, while on any all-ASCII argument list the only way `parse_args` can
abort is the malformed `-r` value. -/
theorem claim9_char_boundary :
    parse_args [badArg] = .error (.notCharBoundary badArg)
    ∧ ∀ (args : List String), (∀ a ∈ args, asciiStr a) →
        ∀ e : PError, parse_args args = .error e → ∃ v, e = .malformedArgument v := by
  constructor
  · rfl
  · intro args ha e h
    exact parseFold_ascii args ha initArgState e ((parse_args_error_iff args e).mp h)

theorem claim9_char_boundary_witness :
    (∀ a ∈ (["-r", "zz"] : List String), asciiStr a)
    ∧ parse_args ["-r", "zz"] = .error (.malformedArgument "zz")
    ∧ ∃ v, PError.malformedArgument "zz" = .malformedArgument v :=
  ⟨by decide, by rfl,
   claim9_char_boundary.2 ["-r", "zz"] (by decide) (.malformedArgument "zz") (by rfl)⟩

/-- Claim C10: when the last argument is a dangling `-t`, `-r` or `-p`
reached in flag position, `parse_args` silently ignores it: it returns
normally with the accumulated file list, defines, include list, top set,
revision and package, and logs no new warning and no error. -/
theorem claim10_dangling_flag (args : List String) (st : ArgState) (flag : String)
    (hok : parseFold initArgState args = .ok st) (hpn : st.pnext = .P_NONE)
    (hflag : flag = "-t" ∨ flag = "-r" ∨ flag = "-p") :
    parse_args (args ++ [flag])
      = .ok ({ file_list := st.file_list, defines := st.defines, inc_list := st.inc_list,
               top_set := st.top_set, rev := st.rev, pkg := st.pkg }, st.warnings) := by
  have hstep : ∃ pn, parseStep st flag = .ok { st with pnext := pn } := by
    rcases hflag with h | h | h
    · refine ⟨.P_TOP, ?_⟩
      rw [h]
      exact parseStep_dash_t st hpn
    · refine ⟨.P_REV, ?_⟩
      rw [h]
      exact parseStep_dash_r st hpn
    · refine ⟨.P_PKG, ?_⟩
      rw [h]
      exact parseStep_dash_p st hpn
  obtain ⟨pn, hs⟩ := hstep
  unfold parse_args
  rw [parseFold_append args [flag] initArgState, hok]
  show Except.map _
      (match parseStep st flag with
       | .ok s => parseFold s []
       | .error e => .error e) = _
  rw [hs]
  rfl

theorem claim10_dangling_flag_witness :
    parseFold initArgState ["f.sv"]
      = .ok { file_list := ["f.sv"], defines := [], inc_list := [], top_set := [],
              rev := 0, pkg := "default", pnext := .P_NONE, warnings := [] }
    ∧ parse_args (["f.sv"] ++ ["-t"])
        = .ok ({ file_list := ["f.sv"], defines := [], inc_list := [], top_set := [],
                 rev := 0, pkg := "default" }, []) :=
  ⟨by rfl,
   claim10_dangling_flag ["f.sv"]
     { file_list := ["f.sv"], defines := [], inc_list := [], top_set := [],
       rev := 0, pkg := "default", pnext := .P_NONE, warnings := [] }
     "-t" (by rfl) (by rfl) (Or.inl rfl)⟩
